import Mathlib

/-!
Verification of the query-cost calculator (`src/app.py`) against its
natural-language specification.

The core of the program is:

* `extract_fields_and_limit(query)`: parses the query into a GraphQL
  document (via the external `graphql` library) and walks every
  definition's selection set with the nested helper `visit_node`,
  collecting `(dot-joined path, child_limit)` pairs for leaf fields into
  the closure-mutated list `all_fields`.
* `calculate_cost(query)`: sums the collected limits, adds the number of
  collected entries, and returns `(total_cost, paths, entries)`.

The embedding below models the GraphQL AST (fields with a name, an
argument list and an optional selection set), Python's `int()` applied to
a literal's string value, and the two functions above.  The external
parser is modelled as a parameter `parseFn : String → Except PyErr Document`,
since `graphql.parse` is a third-party collaborator: the repository's own
logic begins after the parse.
-/

set_option maxHeartbeats 1000000

namespace QueryCost

/-- A non-empty run of decimal digits read as a natural number;
`none` otherwise. -/
def digitsToNat? (l : List Char) : Option Nat :=
  if l ≠ [] ∧ l.all Char.isDigit then
    some (l.foldl (fun acc c => 10 * acc + (c.toNat - 48)) 0)
  else none

/-- Python `int(s)` applied to a string: optional surrounding whitespace,
an optional sign, then a non-empty run of digits; anything else raises
`ValueError`.  (The literal values handed over by the GraphQL parser are
plain digit strings for integer literals, decimal strings for float
literals and arbitrary strings for string literals.) -/
def pyInt (s : String) : Option Int :=
  let t := (s.toList.dropWhile Char.isWhitespace).reverse.dropWhile Char.isWhitespace |>.reverse
  match t with
  | '-' :: rest => (digitsToNat? rest).map (fun n => -(n : Int))
  | '+' :: rest => (digitsToNat? rest).map (fun n => (n : Int))
  | _ => (digitsToNat? t).map (fun n => (n : Int))

/-- Python's `'.'.join(parts)`: the parts concatenated with a dot between
consecutive parts. -/
def joinDot : List String → String
  | [] => ""
  | [s] => s
  | s :: rest => s ++ "." ++ joinDot rest

/-- A GraphQL argument node: `argument.name.value` and
`argument.value.value` as the Python code reads them. -/
structure Argument where
  name : String
  value : String
deriving DecidableEq

mutual
/-- A GraphQL field selection node (`FieldNode`): a name, an argument
list and a selection set.  `Selections.nil` models a `None` selection
set (the Python code tests `selection.selection_set` for truthiness, and
a parsed selection set is never empty). -/
inductive Selection where
  | field (name : String) (arguments : List Argument) (selections : Selections)
deriving DecidableEq
/-- A selection set: an ordered sequence of selection nodes. -/
inductive Selections where
  | nil
  | cons (head : Selection) (tail : Selections)
deriving DecidableEq
end

/-- The name of a selection node (`selection.name.value`). -/
def Selection.name : Selection → String
  | .field n _ _ => n

/-- The argument list of a selection node. -/
def Selection.arguments : Selection → List Argument
  | .field _ a _ => a

/-- The child selection set of a selection node. -/
def Selection.selections : Selection → Selections
  | .field _ _ s => s

/-- Truthiness test of a selection set: `Selections.nil` plays the role
of Python's `None`. -/
def Selections.isEmpty : Selections → Bool
  | .nil => true
  | .cons _ _ => false

/-- Build a selection set from a list of selection nodes. -/
def Selections.ofList : List Selection → Selections
  | [] => Selections.nil
  | s :: rest => Selections.cons s (Selections.ofList rest)

/-- A definition of the document (e.g. an operation definition); the code
only looks at its selection set.  `Selections.nil` models a missing or
`None` selection set. -/
structure Definition where
  selections : Selections

/-- The parsed document: `document.definitions`. -/
structure Document where
  definitions : List Definition

/-- The exceptions the program can raise: `ValueError` from
`int(argument.value.value)` (carrying only the offending literal, as
Python's message does) and the `GraphQLSyntaxError` raised by the
external parser. -/
inductive PyErr where
  | valueError (literal : String)
  | gqlParseError (message : String)
deriving DecidableEq

instance instDecEqExcept {ε α : Type} [DecidableEq ε] [DecidableEq α] :
    DecidableEq (Except ε α) := fun x y =>
  match x, y with
  | Except.ok a, Except.ok b =>
    if h : a = b then isTrue (by rw [h]) else
      isFalse (by intro hc; cases hc; exact h rfl)
  | Except.error e, Except.error f =>
    if h : e = f then isTrue (by rw [h]) else
      isFalse (by intro hc; cases hc; exact h rfl)
  | Except.ok _, Except.error _ => isFalse (by intro hc; cases hc)
  | Except.error _, Except.ok _ => isFalse (by intro hc; cases hc)

/-- The argument scan of `visit_node` (lines 13–15 of `src/app.py`): for
each argument named `"limit"`, set `child_limit := int(value) * current_limit`;
`int` raising aborts the walk.  `cur` is `current_limit`, `acc` the
running `child_limit` (initially equal to `cur`). -/
def computeChildLimit : List Argument → Int → Int → Except PyErr Int
  | [], _, acc => Except.ok acc
  | a :: rest, cur, acc =>
    if a.name = "limit" then
      match pyInt a.value with
      | some v => computeChildLimit rest cur (v * cur)
      | none => Except.error (PyErr.valueError a.value)
    else computeChildLimit rest cur acc

/-- The loop body of `visit_node` (lines 16–22 of `src/app.py`), walking a
selection set.  `visit_node(node, path, current_limit)` on a field node
first computes `child_limit` from the node's own arguments and then
iterates over its selections, so the whole of `visit_node` on a field is
`computeChildLimit` followed by this function; on a definition node
(not a `FieldNode`) no arguments are scanned and `child_limit = 1`.
For each selection: a child with a selection set is visited recursively
with the extended path and its own `child_limit`; a child without one (a
leaf) is appended as `('.'.join(new_path), child_limit)` — its own
arguments are never examined. -/
def visitList : Selections → List String → Int → Except PyErr (List (String × Int))
  | Selections.nil, _, _ => Except.ok []
  | Selections.cons (Selection.field nm args sels) rest, path, childLimit =>
    let newPath := path ++ [nm]
    let headRes : Except PyErr (List (String × Int)) :=
      if sels.isEmpty then Except.ok [(joinDot newPath, childLimit)]
      else
        match computeChildLimit args childLimit childLimit with
        | Except.error e => Except.error e
        | Except.ok cl => visitList sels newPath cl
    match headRes with
    | Except.error e => Except.error e
    | Except.ok es =>
      match visitList rest path childLimit with
      | Except.error e => Except.error e
      | Except.ok more => Except.ok (es ++ more)

/-- The definition loop of `extract_fields_and_limit` (lines 24–26):
every definition with a truthy selection set is visited with the default
arguments `path = []`, `current_limit = 1`; a definition node is not a
`FieldNode`, so no arguments are scanned and the walk of its selection
set starts at `child_limit = 1`. -/
def visitDefs : List Definition → Except PyErr (List (String × Int))
  | [] => Except.ok []
  | d :: rest =>
    if d.selections.isEmpty then visitDefs rest
    else
      match visitList d.selections [] 1 with
      | Except.error e => Except.error e
      | Except.ok es =>
        match visitDefs rest with
        | Except.error e => Except.error e
        | Except.ok more => Except.ok (es ++ more)

/-- `extract_fields_and_limit` (lines 5–28): parse, then walk all
definitions.  The external parser is a parameter. -/
def extract_fields_and_limit (parseFn : String → Except PyErr Document)
    (query : String) : Except PyErr (List (String × Int)) :=
  match parseFn query with
  | Except.error e => Except.error e
  | Except.ok document => visitDefs document.definitions

/-- `calculate_cost` (lines 30–40): sum the limits with a running
accumulator, add the number of entries, and return
`(total_cost, [field[0] for field in fields], fields)`. -/
def calculate_cost (parseFn : String → Except PyErr Document)
    (query : String) : Except PyErr (Int × List String × List (String × Int)) :=
  match extract_fields_and_limit parseFn query with
  | Except.error e => Except.error e
  | Except.ok fields_with_limits =>
    let total_data_points := fields_with_limits.foldl (fun acc f => acc + f.2) 0
    let total_cost := total_data_points + (fields_with_limits.length : Int)
    Except.ok (total_cost, fields_with_limits.map (fun f => f.1), fields_with_limits)

/-! ### Stateful rendering of the walker

`extract_fields_and_limit` in the source accumulates entries by mutating
the closure variable `all_fields` (declared `nonlocal` in `visit_node`).
The functions below embed that version literally, threading the
accumulator through every call; `all_fields` starts as `[]` at the top of
each `extract_fields_and_limit` call.  Relating this rendering to the
pure `visitList` establishes that the mutation never leaks state between
independent calls. -/

/-- The walker with the explicit `all_fields` accumulator: each leaf is
appended to the accumulator as it is encountered, in traversal order. -/
def visitListSt : Selections → List String → Int → List (String × Int) →
    Except PyErr (List (String × Int))
  | Selections.nil, _, _, acc => Except.ok acc
  | Selections.cons (Selection.field nm args sels) rest, path, childLimit, acc =>
    let newPath := path ++ [nm]
    if sels.isEmpty then
      visitListSt rest path childLimit (acc ++ [(joinDot newPath, childLimit)])
    else
      match computeChildLimit args childLimit childLimit with
      | Except.error e => Except.error e
      | Except.ok cl =>
        match visitListSt sels newPath cl acc with
        | Except.error e => Except.error e
        | Except.ok acc2 => visitListSt rest path childLimit acc2

/-- The definition loop, threading the shared accumulator. -/
def visitDefsSt : List Definition → List (String × Int) →
    Except PyErr (List (String × Int))
  | [], acc => Except.ok acc
  | d :: rest, acc =>
    if d.selections.isEmpty then visitDefsSt rest acc
    else
      match visitListSt d.selections [] 1 acc with
      | Except.error e => Except.error e
      | Except.ok acc2 => visitDefsSt rest acc2

/-- `extract_fields_and_limit` in its stateful rendering: `all_fields`
is created empty on entry, mutated during the walk, and returned. -/
def extractSt (parseFn : String → Except PyErr Document) (query : String) :
    Except PyErr (List (String × Int)) :=
  match parseFn query with
  | Except.error e => Except.error e
  | Except.ok document => visitDefsSt document.definitions []

/-! ### Specification-side definitions

These follow the wording of the specification (§3, §4.2, §8) and are
compared against the walker embedded above. -/

/-- The value literal of the last argument named `"limit"` in an argument
list, if any — the scan of lines 13–15 overwrites `child_limit` once per
`limit` argument, so the last one is the one that counts. -/
def lastLimit? : List Argument → Option String
  | [] => none
  | a :: rest =>
    match lastLimit? rest with
    | some v => some v
    | none => if a.name = "limit" then some a.value else none

/-- The multiplicative factor a field contributes to the effective limit
of its descendants: the value of its `limit` argument if it carries one,
else `1` (§3: a field's own `limit` argument if present, else 1; when a
field carries several `limit` arguments the last one counts). -/
def ownFactor (args : List Argument) : Int :=
  match lastLimit? args with
  | some v => (pyInt v).getD 1
  | none => 1

/-- `P` holds of the argument list of every field in the forest. -/
def allFields (P : List Argument → Bool) : Selections → Bool
  | Selections.nil => true
  | Selections.cons (Selection.field _ args sels) rest =>
    P args && allFields P sels && allFields P rest

/-- Every `limit` argument's literal is readable by `int`. -/
def limitsOkArgs (args : List Argument) : Bool :=
  args.all (fun a => a.name != "limit" || (pyInt a.value).isSome)

/-- No argument is named `limit`. -/
def noLimitArgs (args : List Argument) : Bool :=
  args.all (fun a => a.name != "limit")

/-- Every `limit` argument's literal is a non-negative integer (the §6
input convention). -/
def nonNegArgs (args : List Argument) : Bool :=
  args.all (fun a => a.name != "limit" ||
    (match pyInt a.value with
     | some v => decide (0 ≤ v)
     | none => false))

/-- Every `limit` argument's literal is a strictly positive integer. -/
def posArgs (args : List Argument) : Bool :=
  args.all (fun a => a.name != "limit" ||
    (match pyInt a.value with
     | some v => decide (0 < v)
     | none => false))

/-- The leaves of a selection forest in left-to-right depth-first
(pre-order) traversal order, exactly as the spec describes them: each
leaf is reported with the name path from the forest root down to the leaf
and with the argument lists of its strict ancestors (outermost first).
Leaves are not deduplicated. -/
def leafSpecs : Selections → List (List String × List (List Argument))
  | Selections.nil => []
  | Selections.cons (Selection.field nm args sels) rest =>
    (if sels.isEmpty then [(([nm] : List String), ([] : List (List Argument)))]
     else (leafSpecs sels).map (fun p => (nm :: p.1, args :: p.2)))
    ++ leafSpecs rest

/-! ### Helper lemmas -/

theorem selections_isEmpty_iff (sels : Selections) :
    sels.isEmpty = true ↔ sels = Selections.nil := by
  cases sels <;> simp [Selections.isEmpty]

theorem computeChildLimit_eq (args : List Argument) (cur : Int) :
    ∀ acc : Int, limitsOkArgs args = true →
      computeChildLimit args cur acc =
        Except.ok (match lastLimit? args with
          | some v => (pyInt v).getD 1 * cur
          | none => acc) := by
  induction args with
  | nil => intro acc _; simp [computeChildLimit, lastLimit?]
  | cons a rest ih =>
    intro acc h
    have h' : (a.name != "limit" || (pyInt a.value).isSome) = true ∧
        limitsOkArgs rest = true := by
      simpa [limitsOkArgs, List.all_cons] using h
    by_cases ha : a.name = "limit"
    · have hsome : (pyInt a.value).isSome = true := by
        have := h'.1
        simpa [ha] using this
      obtain ⟨v, hv⟩ := Option.isSome_iff_exists.mp hsome
      have step : computeChildLimit (a :: rest) cur acc =
          computeChildLimit rest cur (v * cur) := by
        simp [computeChildLimit, ha, hv]
      rw [step, ih (v * cur) h'.2]
      cases hl : lastLimit? rest with
      | some w => simp [lastLimit?, hl]
      | none => simp [lastLimit?, hl, ha, hv]
    · have step : computeChildLimit (a :: rest) cur acc =
          computeChildLimit rest cur acc := by
        simp [computeChildLimit, ha]
      rw [step, ih acc h'.2]
      cases hl : lastLimit? rest with
      | some w => simp [lastLimit?, hl]
      | none => simp [lastLimit?, hl, ha]

theorem computeChildLimit_ownFactor (args : List Argument) (m : Int)
    (h : limitsOkArgs args = true) :
    computeChildLimit args m m = Except.ok (ownFactor args * m) := by
  rw [computeChildLimit_eq args m m h]
  cases hl : lastLimit? args with
  | some v => simp [ownFactor, hl]
  | none => simp [ownFactor, hl]

theorem allFields_cons (P : List Argument → Bool) (nm : String)
    (args : List Argument) (sels rest : Selections)
    (h : allFields P (Selections.cons (Selection.field nm args sels) rest) = true) :
    P args = true ∧ allFields P sels = true ∧ allFields P rest = true := by
  have h' := h
  simp only [allFields, Bool.and_eq_true] at h'
  exact ⟨h'.1.1, h'.1.2, h'.2⟩

/-- Characterization of the walker: when every `limit` literal in the
forest is readable by `int`, the walk of `sels` from `path` with
inherited multiplier `m` succeeds and reports exactly the depth-first
leaves, each with effective limit `m` times the product of its strict
ancestors' factors. -/
theorem visitList_spec : ∀ (sels : Selections) (path : List String) (m : Int),
    allFields limitsOkArgs sels = true →
    visitList sels path m =
      Except.ok ((leafSpecs sels).map
        (fun p => (joinDot (path ++ p.1), m * (p.2.map ownFactor).prod)))
  | Selections.nil, path, m, _ => by simp [visitList, leafSpecs]
  | Selections.cons (Selection.field nm args sels) rest, path, m, h => by
    obtain ⟨hargs, hsels, hrest⟩ := allFields_cons _ _ _ _ _ h
    have ihr := visitList_spec rest path m hrest
    by_cases hse : sels.isEmpty = true
    · have hnil : sels = Selections.nil := (selections_isEmpty_iff sels).mp hse
      subst hnil
      simp [visitList, leafSpecs, Selections.isEmpty, ihr]
    · have ihs := visitList_spec sels (path ++ [nm]) (ownFactor args * m) hsels
      have hccl := computeChildLimit_ownFactor args m hargs
      simp only [visitList, hse, if_false, Bool.false_eq_true, hccl, ihs, ihr, leafSpecs,
        List.map_append, List.map_map]
      congr 1
      congr 1
      apply List.map_congr_left
      intro p _
      simp [Function.comp, List.append_assoc]
      ring
termination_by sels _ _ _ => sizeOf sels

/-- Every strict-ancestor argument list reported by `leafSpecs` belongs
to some field of the forest, so a property holding of every field's
arguments holds of it. -/
theorem leafSpecs_ancestors (P : List Argument → Bool) :
    ∀ (sels : Selections), allFields P sels = true →
      ∀ p ∈ leafSpecs sels, ∀ args ∈ p.2, P args = true
  | Selections.nil, _, p, hp => by simp [leafSpecs] at hp
  | Selections.cons (Selection.field nm args sels) rest, h, p, hp => by
    obtain ⟨hargs, hsels, hrest⟩ := allFields_cons _ _ _ _ _ h
    rw [leafSpecs, List.mem_append] at hp
    rcases hp with hp | hp
    · by_cases hse : sels.isEmpty = true
      · have hnil : sels = Selections.nil := (selections_isEmpty_iff sels).mp hse
        subst hnil
        simp only [Selections.isEmpty, if_true] at hp
        have hpe : p = ([nm], []) := by simpa using hp
        subst hpe
        intro a ha
        simp at ha
      · simp only [hse, Bool.false_eq_true, if_false, List.mem_map] at hp
        obtain ⟨q, hq, hpq⟩ := hp
        subst hpq
        intro a ha
        rcases List.mem_cons.mp ha with rfl | ha'
        · exact hargs
        · exact leafSpecs_ancestors P sels hsels q hq a ha'
    · exact leafSpecs_ancestors P rest hrest p hp
termination_by sels => sizeOf sels

theorem lastLimit?_mem : ∀ (args : List Argument) (v : String),
    lastLimit? args = some v → ∃ a ∈ args, a.name = "limit" ∧ a.value = v := by
  intro args
  induction args with
  | nil => intro v hv; simp [lastLimit?] at hv
  | cons a rest ih =>
    intro v hv
    rw [lastLimit?] at hv
    cases hl : lastLimit? rest with
    | some w =>
      simp only [hl] at hv
      have hwv : w = v := by simpa using hv
      obtain ⟨b, hb, hbn, hbv⟩ := ih w hl
      exact ⟨b, List.mem_cons_of_mem a hb, hbn, hwv ▸ hbv⟩
    | none =>
      simp only [hl] at hv
      by_cases ha : a.name = "limit"
      · rw [if_pos ha] at hv
        have hav : a.value = v := by simpa using hv
        exact ⟨a, List.mem_cons_self a rest, ha, hav⟩
      · rw [if_neg ha] at hv
        simp at hv

theorem ownFactor_of_noLimit (args : List Argument)
    (h : noLimitArgs args = true) : ownFactor args = 1 := by
  have hl : lastLimit? args = none := by
    cases hl : lastLimit? args with
    | none => rfl
    | some v =>
      obtain ⟨a, ha, han, _⟩ := lastLimit?_mem args v hl
      have := List.all_eq_true.mp h a ha
      simp [han] at this
  simp [ownFactor, hl]

theorem noLimit_limitsOk (args : List Argument)
    (h : noLimitArgs args = true) : limitsOkArgs args = true := by
  apply List.all_eq_true.mpr
  intro a ha
  have := List.all_eq_true.mp h a ha
  simp_all

theorem nonNeg_limitsOk (args : List Argument)
    (h : nonNegArgs args = true) : limitsOkArgs args = true := by
  apply List.all_eq_true.mpr
  intro a ha
  have := List.all_eq_true.mp h a ha
  by_cases han : a.name = "limit"
  · cases hv : pyInt a.value with
    | some v => simp [hv]
    | none => simp [han, hv] at this
  · simp [han]

theorem pos_nonNeg (args : List Argument)
    (h : posArgs args = true) : nonNegArgs args = true := by
  apply List.all_eq_true.mpr
  intro a ha
  have := List.all_eq_true.mp h a ha
  by_cases han : a.name = "limit"
  · cases hv : pyInt a.value with
    | some v =>
      rw [hv] at this
      simp only [han, bne_self_eq_false, Bool.false_or] at this
      have hpos : 0 < v := of_decide_eq_true this
      simp [hv, le_of_lt hpos]
    | none => simp [han, hv] at this
  · simp [han]

theorem ownFactor_nonneg (args : List Argument)
    (h : nonNegArgs args = true) : 0 ≤ ownFactor args := by
  cases hl : lastLimit? args with
  | none => simp [ownFactor, hl]
  | some v =>
    obtain ⟨a, ha, han, hav⟩ := lastLimit?_mem args v hl
    have := List.all_eq_true.mp h a ha
    rw [han] at this
    simp only [bne_self_eq_false, Bool.false_or] at this
    cases hv : pyInt a.value with
    | none => rw [hv] at this; simp at this
    | some k =>
      rw [hv] at this
      have hk : 0 ≤ k := of_decide_eq_true this
      simp [ownFactor, hl, ← hav, hv, hk]

theorem ownFactor_pos (args : List Argument)
    (h : posArgs args = true) : 0 < ownFactor args := by
  cases hl : lastLimit? args with
  | none => simp [ownFactor, hl]
  | some v =>
    obtain ⟨a, ha, han, hav⟩ := lastLimit?_mem args v hl
    have := List.all_eq_true.mp h a ha
    rw [han] at this
    simp only [bne_self_eq_false, Bool.false_or] at this
    cases hv : pyInt a.value with
    | none => rw [hv] at this; simp at this
    | some k =>
      rw [hv] at this
      have hk : 0 < k := of_decide_eq_true this
      simp [ownFactor, hl, ← hav, hv, hk]

/-- The running-total loop of `calculate_cost` computes the sum of the
second components. -/
theorem foldl_add_snd : ∀ (l : List (String × Int)) (acc : Int),
    l.foldl (fun a f => a + f.2) acc = acc + (l.map Prod.snd).sum := by
  intro l
  induction l with
  | nil => intro acc; simp
  | cons x rest ih =>
    intro acc
    simp [List.foldl_cons, ih, add_assoc]

/-- The closure-mutating walker is the pure walker run on a fresh list:
a call with accumulator `acc` returns `acc` extended with exactly the
entries the pure walker produces.  In particular no call depends on
state left by any earlier call. -/
theorem visitListSt_eq : ∀ (sels : Selections) (path : List String) (cl : Int)
    (acc : List (String × Int)),
    visitListSt sels path cl acc = (visitList sels path cl).map (fun es => acc ++ es)
  | Selections.nil, path, cl, acc => by simp [visitListSt, visitList, Except.map]
  | Selections.cons (Selection.field nm args sels) rest, path, cl, acc => by
    by_cases hse : sels.isEmpty = true
    · have ihr := visitListSt_eq rest path cl (acc ++ [(joinDot (path ++ [nm]), cl)])
      simp only [visitListSt, visitList, hse, if_true]
      rw [ihr]
      cases hr : visitList rest path cl <;> simp [Except.map, List.append_assoc]
    · simp only [visitListSt, visitList, hse, Bool.false_eq_true, if_false]
      cases hc : computeChildLimit args cl cl with
      | error e => simp [Except.map]
      | ok cl2 =>
        simp only []
        rw [visitListSt_eq sels (path ++ [nm]) cl2 acc]
        cases hs : visitList sels (path ++ [nm]) cl2 with
        | error e => simp [Except.map]
        | ok es =>
          simp only [Except.map]
          rw [visitListSt_eq rest path cl (acc ++ es)]
          cases hr : visitList rest path cl <;> simp [Except.map, List.append_assoc]
termination_by sels _ _ _ => sizeOf sels

/-- The definition loop with the shared accumulator, related to the pure
definition loop in the same way. -/
theorem visitDefsSt_eq : ∀ (ds : List Definition) (acc : List (String × Int)),
    visitDefsSt ds acc = (visitDefs ds).map (fun es => acc ++ es) := by
  intro ds
  induction ds with
  | nil => intro acc; simp [visitDefsSt, visitDefs, Except.map]
  | cons d rest ih =>
    intro acc
    by_cases hd : d.selections.isEmpty = true
    · simp only [visitDefsSt, visitDefs, hd, if_true]
      exact ih acc
    · simp only [visitDefsSt, visitDefs, hd, Bool.false_eq_true, if_false]
      rw [visitListSt_eq d.selections [] 1 acc]
      cases hv : visitList d.selections [] 1 with
      | error e => simp [Except.map]
      | ok es =>
        simp only [Except.map]
        rw [ih (acc ++ es)]
        cases hr : visitDefs rest <;> simp [Except.map, List.append_assoc]

/-- The stateful rendering of `extract_fields_and_limit` agrees with the
pure one: the fresh `all_fields = []` at the start of each call makes the
result depend on the query alone. -/
theorem extractSt_eq (parseFn : String → Except PyErr Document) (query : String) :
    extractSt parseFn query = extract_fields_and_limit parseFn query := by
  unfold extractSt extract_fields_and_limit
  cases hp : parseFn query with
  | error e => rfl
  | ok document =>
    show visitDefsSt document.definitions [] = visitDefs document.definitions
    rw [visitDefsSt_eq document.definitions []]
    cases hd : visitDefs document.definitions <;> simp [Except.map]

/-- Traversing the concatenation of two definition lists concatenates
their entry lists (when both succeed). -/
theorem visitDefs_append : ∀ (ds1 ds2 : List Definition)
    (es1 es2 : List (String × Int)),
    visitDefs ds1 = Except.ok es1 → visitDefs ds2 = Except.ok es2 →
    visitDefs (ds1 ++ ds2) = Except.ok (es1 ++ es2) := by
  intro ds1
  induction ds1 with
  | nil =>
    intro ds2 es1 es2 h1 h2
    have he : es1 = [] := by simpa [visitDefs] using h1.symm
    subst he
    simpa using h2
  | cons d rest ih =>
    intro ds2 es1 es2 h1 h2
    by_cases hd : d.selections.isEmpty = true
    · rw [visitDefs, if_pos hd] at h1
      rw [List.cons_append, visitDefs, if_pos hd]
      exact ih ds2 es1 es2 h1 h2
    · rw [visitDefs, if_neg hd] at h1
      rw [List.cons_append, visitDefs, if_neg hd]
      cases hv : visitList d.selections [] 1 with
      | error e => rw [hv] at h1; simp at h1
      | ok es =>
        rw [hv] at h1
        cases hr : visitDefs rest with
        | error e => rw [hr] at h1; simp at h1
        | ok more =>
          rw [hr] at h1
          have he : es1 = es ++ more := by simpa using h1.symm
          subst he
          rw [ih ds2 more es2 hr h2]
          simp [List.append_assoc]

/-- A single definition with a non-empty selection set is traversed with
`path = []` and `current_limit = 1`. -/
theorem visitDefs_singleton (d : Definition) (hd : ¬ d.selections.isEmpty = true) :
    visitDefs [d] = visitList d.selections [] 1 := by
  rw [visitDefs, if_neg hd]
  cases hv : visitList d.selections [] 1 <;> simp [visitDefs]

/-- Monotonicity of `allFields` under pointwise implication. -/
theorem allFields_mono (P Q : List Argument → Bool)
    (hPQ : ∀ args, P args = true → Q args = true) :
    ∀ sels : Selections, allFields P sels = true → allFields Q sels = true
  | Selections.nil, _ => by simp [allFields]
  | Selections.cons (Selection.field nm args sels) rest, h => by
    obtain ⟨hargs, hsels, hrest⟩ := allFields_cons _ _ _ _ _ h
    simp only [allFields, Bool.and_eq_true]
    exact ⟨⟨hPQ args hargs, allFields_mono P Q hPQ sels hsels⟩,
      allFields_mono P Q hPQ rest hrest⟩
termination_by sels => sizeOf sels

/-! ### Concrete documents (parsed ASTs of example queries) -/

/-- The AST of `{ a(limit: 2) }`: a single operation whose only selection
is the leaf field `a` carrying `limit: 2`. -/
def docLeafLimit : Document :=
  ⟨[⟨Selections.ofList [Selection.field "a" [⟨"limit", "2"⟩] Selections.nil]⟩]⟩

/-- The AST of `{ a(limit: 10) { b(limit: 3) { c } } }`. -/
def docNested : Document :=
  ⟨[⟨Selections.ofList [Selection.field "a" [⟨"limit", "10"⟩]
      (Selections.ofList [Selection.field "b" [⟨"limit", "3"⟩]
        (Selections.ofList [Selection.field "c" [] Selections.nil])])]⟩]⟩

/-- The AST of `{ a(limit: "oops") { b } }`: the string literal `"oops"`
as the `limit` value of a non-leaf field. -/
def docBadLimit : Document :=
  ⟨[⟨Selections.ofList [Selection.field "a" [⟨"limit", "oops"⟩]
      (Selections.ofList [Selection.field "b" [] Selections.nil])]⟩]⟩

/-- The AST of `{ a(limit: 0) { b } }`: a zero (hence non-negative)
`limit` literal on a non-leaf field. -/
def docZeroLimit : Document :=
  ⟨[⟨Selections.ofList [Selection.field "a" [⟨"limit", "0"⟩]
      (Selections.ofList [Selection.field "b" [] Selections.nil])]⟩]⟩

/-- The AST of `{ a a }`: the same leaf repeated under the same parent. -/
def docDupSame : Document :=
  ⟨[⟨Selections.ofList [Selection.field "a" [] Selections.nil,
      Selection.field "a" [] Selections.nil]⟩]⟩

/-- The AST of `{ p { a } q { a } }`: the same leaf name under two
different ancestors. -/
def docDupAncestors : Document :=
  ⟨[⟨Selections.ofList
      [Selection.field "p" [] (Selections.ofList [Selection.field "a" [] Selections.nil]),
       Selection.field "q" [] (Selections.ofList [Selection.field "a" [] Selections.nil])]⟩]⟩

/-- The selection set of `{ a }`. -/
def selsSingleA : Selections :=
  Selections.ofList [Selection.field "a" [] Selections.nil]

/-- The selection set of `{ a a }`. -/
def selsDoubleA : Selections :=
  Selections.ofList [Selection.field "a" [] Selections.nil,
    Selection.field "a" [] Selections.nil]

/-- The selection set of `{ a(limit: 2) { b } }`. -/
def selsLimitTwo : Selections :=
  Selections.ofList [Selection.field "a" [⟨"limit", "2"⟩]
    (Selections.ofList [Selection.field "b" [] Selections.nil])]

/-! ### Claims -/

/-- C1 (counterexample): on `{ a(limit: 2) }`, where `a` is a leaf, the
program returns the entry `("a", 1)` and total cost `2` — not the claimed
`("a", 2)` with total cost `3`.  The leaf's own `limit` argument is never
read: `visit_node` is only ever called on nodes with a selection set, and
leaves are appended by their parent's loop iteration using the parent's
`child_limit`. -/
theorem C1_counterexample :
    calculate_cost (fun _ => Except.ok docLeafLimit) "q"
      = Except.ok (2, ["a"], [("a", 1)])
    ∧ calculate_cost (fun _ => Except.ok docLeafLimit) "q"
      ≠ Except.ok (3, ["a"], [("a", 2)]) := by
  refine ⟨by rfl, ?_⟩
  decide

/-- C1 (amended): the walker never reads a leaf field's own arguments —
the entry recorded for a leaf selection carries exactly the limit
inherited from its parent, whatever the leaf's argument list (and in
particular whatever its `limit` argument) is; on `{ a(limit: 2) }` this
gives the entry `("a", 1)` and total cost `2`. -/
theorem C1_leaf_arguments_ignored (nm : String) (args : List Argument)
    (path : List String) (cl : Int) (rest : Selections) :
    visitList (Selections.cons (Selection.field nm args Selections.nil) rest) path cl
      = (visitList rest path cl).map
          (fun es => (joinDot (path ++ [nm]), cl) :: es) := by
  simp only [visitList, Selections.isEmpty, if_true]
  cases hr : visitList rest path cl <;> simp [Except.map]

/-- C2: whenever `calculate_cost` succeeds, the reported total cost is
the sum of the effective limits of the produced entries plus the number
of those entries. -/
theorem C2_total_is_sum_plus_count (parseFn : String → Except PyErr Document)
    (query : String) (total : Int) (paths : List String)
    (entries : List (String × Int))
    (h : calculate_cost parseFn query = Except.ok (total, paths, entries)) :
    total = (entries.map Prod.snd).sum + entries.length := by
  unfold calculate_cost at h
  cases he : extract_fields_and_limit parseFn query with
  | error e => rw [he] at h; simp at h
  | ok fs =>
    rw [he] at h
    simp only [Except.ok.injEq, Prod.mk.injEq] at h
    obtain ⟨h1, _, h3⟩ := h
    subst h3
    rw [← h1, foldl_add_snd fs 0]
    simp

/-- C2 witness: instantiated on the AST of
`{ a(limit: 10) { b(limit: 3) { c } } }`. -/
theorem C2_total_is_sum_plus_count_witness :
    (31 : Int) = ([(("a.b.c" : String), (30 : Int))].map Prod.snd).sum
      + [(("a.b.c" : String), (30 : Int))].length :=
  C2_total_is_sum_plus_count (fun _ => Except.ok docNested) "q" 31 ["a.b.c"]
    [("a.b.c", 30)] (by rfl)

/-- A list of pairs whose second components are all `1` sums (over the
second components) to its length. -/
theorem sum_snd_ones : ∀ l : List (String × Int), (∀ e ∈ l, e.2 = 1) →
    (l.map Prod.snd).sum = (l.length : Int) := by
  intro l
  induction l with
  | nil => simp
  | cons x rest ih =>
    intro h
    have hx := h x (List.mem_cons_self x rest)
    simp only [List.map_cons, List.sum_cons, hx, List.length_cons]
    rw [ih (fun e he => h e (List.mem_cons_of_mem x he))]
    push_cast
    ring

/-- C3: effective limits multiply down the tree from the root multiplier
`1` — the walker reports every depth-first leaf with effective limit the
product of its strict ancestors' factors, a field without a `limit`
argument contributing factor `1` (`ownFactor`); when no `limit` argument
occurs anywhere all effective limits are `1`, so the aggregate
`sum + count` is `2N` for `N` produced entries; and
`{ a(limit: 10) { b(limit: 3) { c } } }` yields the single entry
`("a.b.c", 30)` with total cost `31`. -/
theorem C3_limits_multiply (sels : Selections)
    (h : allFields limitsOkArgs sels = true) :
    visitList sels [] 1 =
      Except.ok ((leafSpecs sels).map
        (fun p => (joinDot p.1, (p.2.map ownFactor).prod)))
    ∧ (allFields noLimitArgs sels = true →
        ∀ es, visitList sels [] 1 = Except.ok es →
          (es.map Prod.snd).sum + (es.length : Int) = 2 * (es.length : Int))
    ∧ calculate_cost (fun _ => Except.ok docNested) "q"
        = Except.ok (31, ["a.b.c"], [("a.b.c", 30)]) := by
  have hmain := visitList_spec sels [] 1 h
  refine ⟨by simpa using hmain, ?_, by rfl⟩
  intro hnl es hes
  rw [hmain] at hes
  have hes' : es = (leafSpecs sels).map
      (fun p => (joinDot ([] ++ p.1), 1 * (p.2.map ownFactor).prod)) :=
    (Except.ok.inj hes).symm
  have hone : ∀ e ∈ es, e.2 = 1 := by
    intro e he
    rw [hes'] at he
    obtain ⟨p, hp, hpe⟩ := List.mem_map.mp he
    have hprod : (p.2.map ownFactor).prod = 1 := by
      apply List.prod_eq_one
      intro x hx
      obtain ⟨a, ha, hax⟩ := List.mem_map.mp hx
      have hnla := leafSpecs_ancestors noLimitArgs sels hnl p hp a ha
      rw [← hax]
      exact ownFactor_of_noLimit a hnla
    rw [← hpe]
    simp [hprod]
  rw [sum_snd_ones es hone]
  ring

/-- C3 witness: instantiated on the selection list of `{ a }`. -/
theorem C3_limits_multiply_witness :
    allFields limitsOkArgs selsSingleA = true
    ∧ (visitList selsSingleA [] 1 =
        Except.ok ((leafSpecs selsSingleA).map
          (fun p => (joinDot p.1, (p.2.map ownFactor).prod)))
      ∧ (allFields noLimitArgs selsSingleA = true →
          ∀ es, visitList selsSingleA [] 1 = Except.ok es →
            (es.map Prod.snd).sum + (es.length : Int) = 2 * (es.length : Int))
      ∧ calculate_cost (fun _ => Except.ok docNested) "q"
          = Except.ok (31, ["a.b.c"], [("a.b.c", 30)])) :=
  ⟨by decide, C3_limits_multiply selsSingleA (by decide)⟩

/-- C4 (counterexample): on `{ a(limit: "oops") { b } }` the walk aborts
with the bare `ValueError` that `int("oops")` raises — an untyped builtin
error carrying only the malformed literal.  No `CostComputationError`
class exists anywhere in the program (`PyErr` enumerates every error the
code can produce), and the error does not carry the offending field path
`"a"`. -/
theorem C4_counterexample :
    extract_fields_and_limit (fun _ => Except.ok docBadLimit) "q"
      = Except.error (PyErr.valueError "oops")
    ∧ ("oops" : String) ≠ "a" := by
  exact ⟨by rfl, by decide⟩

/-- C4 (amended): a malformed `limit` literal on a *non-leaf* field makes
the walker abort with the untyped `ValueError` from `int`, carrying the
literal and not the field path; a malformed `limit` on a *leaf* field is
ignored entirely, because a leaf's arguments are never read. -/
theorem C4_untyped_value_error (nm v : String) (args : List Argument)
    (sels rest : Selections) (path : List String) (cl : Int)
    (hv : pyInt v = none) (hne : ¬ sels.isEmpty = true) :
    visitList (Selections.cons (Selection.field nm (⟨"limit", v⟩ :: args) sels) rest)
        path cl
      = Except.error (PyErr.valueError v)
    ∧ visitList (Selections.cons (Selection.field nm [⟨"limit", v⟩] Selections.nil) rest)
        path cl
      = (visitList rest path cl).map
          (fun es => (joinDot (path ++ [nm]), cl) :: es) := by
  constructor
  · have hc : computeChildLimit (⟨"limit", v⟩ :: args) cl cl
        = Except.error (PyErr.valueError v) := by
      simp [computeChildLimit, hv]
    simp [visitList, hne, hc]
  · simp only [visitList, Selections.isEmpty, if_true]
    cases hr : visitList rest path cl <;> simp [Except.map]

/-- C4 witness: the amended statement instantiated on
`{ a(limit: "oops") { b } }` and on `{ a(limit: "oops") }`. -/
theorem C4_untyped_value_error_witness :
    pyInt "oops" = none
    ∧ ¬ ((Selections.ofList [Selection.field "b" [] Selections.nil]).isEmpty = true)
    ∧ (visitList
          (Selections.cons
            (Selection.field "a" [⟨"limit", "oops"⟩]
              (Selections.ofList [Selection.field "b" [] Selections.nil]))
            Selections.nil) [] 1
        = Except.error (PyErr.valueError "oops")
      ∧ visitList
          (Selections.cons
            (Selection.field "a" [⟨"limit", "oops"⟩] Selections.nil)
            Selections.nil) [] 1
        = (visitList Selections.nil [] 1).map
            (fun es => (joinDot ([] ++ ["a"]), 1) :: es)) :=
  ⟨by decide, by decide,
   C4_untyped_value_error "a" "oops" []
     (Selections.ofList [Selection.field "b" [] Selections.nil]) Selections.nil
     [] 1 (by decide) (by decide)⟩

/-- C5 (counterexample): `{ a(limit: 0) { b } }` satisfies the §6 input
convention — `0` is a non-negative integer literal — yet the produced
entry is `("a.b", 0)`, whose effective limit is not strictly positive. -/
theorem C5_counterexample :
    allFields nonNegArgs
      (Selections.ofList [Selection.field "a" [⟨"limit", "0"⟩]
        (Selections.ofList [Selection.field "b" [] Selections.nil])]) = true
    ∧ calculate_cost (fun _ => Except.ok docZeroLimit) "q"
      = Except.ok (1, ["a.b"], [("a.b", 0)])
    ∧ ¬ ((0 : Int) > 0) := by
  exact ⟨by decide, by rfl, by simp⟩

/-- C5 (amended): under the non-negative input convention every produced
effective limit is non-negative; it is strictly positive whenever every
`limit` literal in the query is strictly positive (the convention as
stated admits `0`, which propagates a zero effective limit). -/
theorem C5_effective_limits_sign (sels : Selections)
    (hnn : allFields nonNegArgs sels = true) :
    (∀ es, visitList sels [] 1 = Except.ok es → ∀ e ∈ es, 0 ≤ e.2)
    ∧ (allFields posArgs sels = true →
        ∀ es, visitList sels [] 1 = Except.ok es → ∀ e ∈ es, 0 < e.2) := by
  have hok : allFields limitsOkArgs sels = true :=
    allFields_mono nonNegArgs limitsOkArgs nonNeg_limitsOk sels hnn
  have hmain := visitList_spec sels [] 1 hok
  constructor
  · intro es hes e he
    rw [hmain] at hes
    rw [(Except.ok.inj hes).symm] at he
    obtain ⟨p, hp, hpe⟩ := List.mem_map.mp he
    have hge : 0 ≤ (p.2.map ownFactor).prod := by
      apply List.prod_nonneg
      intro x hx
      obtain ⟨a, ha, hax⟩ := List.mem_map.mp hx
      rw [← hax]
      exact ownFactor_nonneg a (leafSpecs_ancestors nonNegArgs sels hnn p hp a ha)
    rw [← hpe]
    simpa using hge
  · intro hpos es hes e he
    rw [hmain] at hes
    rw [(Except.ok.inj hes).symm] at he
    obtain ⟨p, hp, hpe⟩ := List.mem_map.mp he
    have hgt : 0 < (p.2.map ownFactor).prod := by
      apply List.prod_pos
      intro x hx
      obtain ⟨a, ha, hax⟩ := List.mem_map.mp hx
      rw [← hax]
      exact ownFactor_pos a (leafSpecs_ancestors posArgs sels hpos p hp a ha)
    rw [← hpe]
    simpa using hgt

/-- C5 witness: the amended statement instantiated on
`{ a(limit: 2) { b } }`. -/
theorem C5_effective_limits_sign_witness :
    allFields nonNegArgs selsLimitTwo = true
    ∧ ((∀ es, visitList selsLimitTwo [] 1 = Except.ok es → ∀ e ∈ es, 0 ≤ e.2)
      ∧ (allFields posArgs selsLimitTwo = true →
          ∀ es, visitList selsLimitTwo [] 1 = Except.ok es → ∀ e ∈ es, 0 < e.2)) :=
  ⟨by decide, C5_effective_limits_sign selsLimitTwo (by decide)⟩

/-- C6: definitions are traversed independently — each definition with a
non-empty selection set is walked from the multiplier `1` and the empty
path, and the entry lists of consecutive definition groups are
concatenated in document order. -/
theorem C6_definitions_independent (d : Definition) (ds1 ds2 : List Definition)
    (es1 es2 : List (String × Int))
    (h1 : visitDefs ds1 = Except.ok es1) (h2 : visitDefs ds2 = Except.ok es2)
    (hd : ¬ d.selections.isEmpty = true) :
    visitDefs (ds1 ++ ds2) = Except.ok (es1 ++ es2)
    ∧ visitDefs [d] = visitList d.selections [] 1 :=
  ⟨visitDefs_append ds1 ds2 es1 es2 h1 h2, visitDefs_singleton d hd⟩

/-- C6 witness: a document of two operation definitions, `{ a }` and
`{ b }`. -/
theorem C6_definitions_independent_witness :
    visitDefs [(⟨Selections.ofList [Selection.field "a" [] Selections.nil]⟩ : Definition)]
      = Except.ok [("a", 1)]
    ∧ visitDefs [(⟨Selections.ofList [Selection.field "b" [] Selections.nil]⟩ : Definition)]
      = Except.ok [("b", 1)]
    ∧ ¬ ((⟨Selections.ofList [Selection.field "a" [] Selections.nil]⟩ : Definition).selections.isEmpty = true)
    ∧ (visitDefs ([(⟨Selections.ofList [Selection.field "a" [] Selections.nil]⟩ : Definition)]
          ++ [(⟨Selections.ofList [Selection.field "b" [] Selections.nil]⟩ : Definition)])
        = Except.ok ([("a", 1)] ++ [("b", 1)])
      ∧ visitDefs [(⟨Selections.ofList [Selection.field "a" [] Selections.nil]⟩ : Definition)]
        = visitList (⟨Selections.ofList [Selection.field "a" [] Selections.nil]⟩ : Definition).selections [] 1) :=
  ⟨by rfl, by rfl, by decide,
   C6_definitions_independent
     ⟨Selections.ofList [Selection.field "a" [] Selections.nil]⟩
     [⟨Selections.ofList [Selection.field "a" [] Selections.nil]⟩]
     [⟨Selections.ofList [Selection.field "b" [] Selections.nil]⟩]
     [("a", 1)] [("b", 1)] (by rfl) (by rfl) (by decide)⟩

/-- C7: the reported field paths are the depth-first, left-to-right leaf
paths exactly as written (the order of `leafSpecs`), and occurrences are
not deduplicated: `{ a a }` yields two `"a"` entries and
`{ p { a } q { a } }` yields one entry per occurrence. -/
theorem C7_dfs_order_no_dedup (sels : Selections) (path : List String)
    (m : Int) (h : allFields limitsOkArgs sels = true) :
    (visitList sels path m).map (fun es => es.map Prod.fst)
      = Except.ok ((leafSpecs sels).map (fun p => joinDot (path ++ p.1)))
    ∧ calculate_cost (fun _ => Except.ok docDupSame) "q"
      = Except.ok (4, ["a", "a"], [("a", 1), ("a", 1)])
    ∧ calculate_cost (fun _ => Except.ok docDupAncestors) "q"
      = Except.ok (4, ["p.a", "q.a"], [("p.a", 1), ("q.a", 1)]) := by
  refine ⟨?_, by rfl, by rfl⟩
  rw [visitList_spec sels path m h]
  simp [Except.map, List.map_map, Function.comp]

/-- C7 witness: instantiated on the selection list of `{ a a }`. -/
theorem C7_dfs_order_no_dedup_witness :
    allFields limitsOkArgs selsDoubleA = true
    ∧ ((visitList selsDoubleA [] 1).map (fun es => es.map Prod.fst)
        = Except.ok ((leafSpecs selsDoubleA).map (fun p => joinDot ([] ++ p.1)))
      ∧ calculate_cost (fun _ => Except.ok docDupSame) "q"
        = Except.ok (4, ["a", "a"], [("a", 1), ("a", 1)])
      ∧ calculate_cost (fun _ => Except.ok docDupAncestors) "q"
        = Except.ok (4, ["p.a", "q.a"], [("p.a", 1), ("q.a", 1)])) :=
  ⟨by decide, C7_dfs_order_no_dedup selsDoubleA [] 1 (by decide)⟩

/-- C8: a parse failure is surfaced as the parser's error, unchanged:
nothing is computed, no report (no `Except.ok` value) is produced, and
`extract_fields_and_limit` and `calculate_cost` both return exactly the
parser's `GraphQLSyntaxError`. -/
theorem C8_parse_error_propagates (parseFn : String → Except PyErr Document)
    (query : String) (msg : String)
    (h : parseFn query = Except.error (PyErr.gqlParseError msg)) :
    extract_fields_and_limit parseFn query
      = Except.error (PyErr.gqlParseError msg)
    ∧ calculate_cost parseFn query = Except.error (PyErr.gqlParseError msg)
    ∧ ∀ r, calculate_cost parseFn query ≠ Except.ok r := by
  have he : extract_fields_and_limit parseFn query
      = Except.error (PyErr.gqlParseError msg) := by
    unfold extract_fields_and_limit
    rw [h]
  have hc : calculate_cost parseFn query
      = Except.error (PyErr.gqlParseError msg) := by
    unfold calculate_cost
    rw [he]
  exact ⟨he, hc, fun r hr => by rw [hc] at hr; cases hr⟩

/-- C8 witness: a parser that rejects its input with a message. -/
theorem C8_parse_error_propagates_witness :
    (fun (_ : String) =>
        Except.error (α := Document) (PyErr.gqlParseError "unexpected token")) "q"
      = Except.error (PyErr.gqlParseError "unexpected token")
    ∧ (extract_fields_and_limit
        (fun _ => Except.error (PyErr.gqlParseError "unexpected token")) "q"
          = Except.error (PyErr.gqlParseError "unexpected token")
      ∧ calculate_cost
          (fun _ => Except.error (PyErr.gqlParseError "unexpected token")) "q"
          = Except.error (PyErr.gqlParseError "unexpected token")
      ∧ ∀ r, calculate_cost
          (fun _ => Except.error (PyErr.gqlParseError "unexpected token")) "q"
          ≠ Except.ok r) :=
  ⟨rfl,
   C8_parse_error_propagates
     (fun _ => Except.error (PyErr.gqlParseError "unexpected token")) "q"
     "unexpected token" rfl⟩

/-- C9: the estimation is deterministic and stateless.  Two calls of the
pure embedding agree definitionally; more substantially, the literal
stateful rendering of the source (the closure-mutated `all_fields`
threaded through every recursive call, re-created empty per call) always
returns exactly what the pure function returns, so no state is carried
between calls and results depend on the query alone. -/
theorem C9_stateless (parseFn : String → Except PyErr Document)
    (query : String) :
    calculate_cost parseFn query = calculate_cost parseFn query
    ∧ extractSt parseFn query = extract_fields_and_limit parseFn query :=
  ⟨rfl, extractSt_eq parseFn query⟩

/-- C10: in a successful result the second component is exactly the
sequence of first components of the entry list, in order and of the same
length. -/
theorem C10_paths_match_entries (parseFn : String → Except PyErr Document)
    (query : String) (total : Int) (paths : List String)
    (entries : List (String × Int))
    (h : calculate_cost parseFn query = Except.ok (total, paths, entries)) :
    paths = entries.map Prod.fst ∧ paths.length = entries.length := by
  unfold calculate_cost at h
  cases he : extract_fields_and_limit parseFn query with
  | error e => rw [he] at h; simp at h
  | ok fs =>
    rw [he] at h
    simp only [Except.ok.injEq, Prod.mk.injEq] at h
    obtain ⟨_, h2, h3⟩ := h
    subst h3
    rw [← h2]
    exact ⟨rfl, by simp⟩

/-- C10 witness: instantiated on the AST of
`{ a(limit: 10) { b(limit: 3) { c } } }`. -/
theorem C10_paths_match_entries_witness :
    (["a.b.c"] : List String) = [(("a.b.c" : String), (30 : Int))].map Prod.fst
    ∧ (["a.b.c"] : List String).length = [(("a.b.c" : String), (30 : Int))].length :=
  C10_paths_match_entries (fun _ => Except.ok docNested) "q" 31 ["a.b.c"]
    [("a.b.c", 30)] (by rfl)

end QueryCost
